import Mathlib

set_option maxRecDepth 100000

/-!
Verification of the Vigenère-style cipher toolkit (tinker crate).

Character streams are embedded as `List Nat` of Unicode code points; the key,
which the Rust code reads through `String::as_bytes`, is a `List Nat` of bytes.
Rust `char::is_alphabetic` (the Unicode `Alphabetic` property) is abstracted as
a boolean parameter `alpha`; theorems over ASCII inputs constrain it by
`AlphaFaithful`, the fact that below U+0080 the `Alphabetic` property holds
exactly at the 52 ASCII letters.
-/

namespace Tinker

/-- ASCII uppercase letter test on a code point. -/
def isUpper (c : Nat) : Bool := 65 ≤ c && c ≤ 90

/-- ASCII lowercase letter test on a code point. -/
def isLower (c : Nat) : Bool := 97 ≤ c && c ≤ 122

/-- ASCII letter test on a code point. -/
def isLetter (c : Nat) : Bool := isUpper c || isLower c

/-- Rust `char::is_ascii`. -/
def isAscii (c : Nat) : Bool := c < 128

/-- The Rust cast `as u8` of an `i32` value: the low 8 bits in two's
complement, i.e. the value modulo 256. -/
def toU8 (x : Int) : Nat := (x % 256).toNat

/-- Rust `char::to_ascii_lowercase` on a code point (also the byte-level action
of `String::to_ascii_lowercase` on each key byte). -/
def toAsciiLowercaseChar (c : Nat) : Nat := if isUpper c then c + 32 else c

/-- Rust `String::to_ascii_lowercase` on the key's byte sequence. -/
def toAsciiLowercase (s : List Nat) : List Nat := s.map toAsciiLowercaseChar

/-- The per-key-character shift `keychar as i32 - 'a' as i32` computed on
lines 6 and 17 of crypto.rs. -/
def keyShift (keychar : Nat) : Int := (keychar : Int) - 97

/-- crypto.rs `fn encdec`. Characters are code points; Rust `%` on `i32` is the
truncated remainder `Int.tmod`; the final `as u8 as char` cast is `toU8`. -/
def encdec (c : Nat) (keychar : Nat) (dec : Bool) : Nat :=
  if dec then
    let cphr : Int := (c : Int) - 97
    let keychar_i32 : Int := keyShift keychar
    let cphr2 : Int :=
      if cphr - keychar_i32 < 0 then 26 + (cphr - keychar_i32)
      else cphr - keychar_i32
    toU8 (cphr2 + 97)
  else
    let c_i32 : Int := (c : Int)
    let keychar_i32 : Int := keyShift keychar
    toU8 (Int.tmod (c_i32 - 97 + keychar_i32) 26 + 97)

/-- The loop of crypto.rs `fn encryptdecrypt`, with the mutable `index` made an
explicit argument and the `collector` the returned list. The indexing
`keychars[keyindex]`, which panics in Rust when `keyindex` is out of bounds, is
the guarded lookup whose failure is the `none` branch. The final value of
`index` is returned alongside the collector so that statements about the key
cursor can be made. -/
def edLoop (alpha : Nat → Bool) (keychars : List Nat) (dec : Bool) :
    List Nat → Nat → Option (List Nat × Nat)
  | [], index => some ([], index)
  | i :: rest, index =>
    if alpha i then
      let c := toAsciiLowercaseChar i
      let keyindex := index % 5
      if keyindex < keychars.length then
        match edLoop alpha keychars dec rest (index + 1) with
        | none => none
        | some (out, fin) => some (encdec c (keychars.getD keyindex 0) dec :: out, fin)
      else none
    else if isAscii i then
      match edLoop alpha keychars dec rest index with
      | none => none
      | some (out, fin) => some (i :: out, fin)
    else
      edLoop alpha keychars dec rest index

/-- crypto.rs `fn encryptdecrypt`: runs the loop from index 0; `none` is the
out-of-bounds panic, `some` the `Ok` result. -/
def encryptdecrypt (alpha : Nat → Bool) (str key : List Nat) (dec : Bool) :
    Option (List Nat) :=
  (edLoop alpha key dec str 0).map Prod.fst

/-- crypto.rs `fn decrypt`. -/
def decrypt (alpha : Nat → Bool) (encrypted_string key : List Nat) :
    Option (List Nat) :=
  encryptdecrypt alpha encrypted_string (toAsciiLowercase key) true

/-- crypto.rs `fn encrypt`. -/
def encrypt (alpha : Nat → Bool) (plain_string key : List Nat) :
    Option (List Nat) :=
  encryptdecrypt alpha plain_string (toAsciiLowercase key) false

/-- The restriction of `char::is_alphabetic` to the ASCII plane: exactly the
ASCII letters. Used to instantiate `alpha` on concrete ASCII inputs. -/
def asciiAlpha : Nat → Bool := isLetter

/-- `alpha` agrees with Unicode `is_alphabetic` on ASCII: below U+0080 the
Unicode `Alphabetic` property holds exactly at the 52 ASCII letters. -/
def AlphaFaithful (alpha : Nat → Bool) : Prop :=
  ∀ c, c < 128 → alpha c = isLetter c

/-- `fold_case` of the spec: lowercase letters, leave every other character
untouched (on ASCII text this is exactly `to_ascii_lowercase`). -/
def foldCase (s : List Nat) : List Nat := s.map toAsciiLowercaseChar

example : encrypt asciiAlpha [97, 98] [98, 99, 100, 101, 102] = some [98, 100] := by decide
example : encrypt asciiAlpha [97, 98] [98] = none := by decide
example : encrypt asciiAlpha [97] [48, 97, 97, 97, 97] = some [74] := by decide
example : decrypt asciiAlpha [98, 100] [98, 99, 100, 101, 102] = some [97, 98] := by decide

lemma encdec_enc_bound : ∀ c, c < 123 → ∀ k, k < 123 → 97 ≤ c → 97 ≤ k →
    97 ≤ encdec c k false ∧ encdec c k false ≤ 122 := by decide

lemma encdec_dec_enc : ∀ c, c < 123 → ∀ k, k < 123 → 97 ≤ c → 97 ≤ k →
    encdec (encdec c k false) k true = c := by decide

lemma lower_of_letter {c : Nat} (h : isLetter c = true) :
    97 ≤ toAsciiLowercaseChar c ∧ toAsciiLowercaseChar c ≤ 122 := by
  unfold isLetter isUpper isLower at h
  unfold toAsciiLowercaseChar isUpper
  by_cases hu : (65 ≤ c && c ≤ 90) = true
  · rw [if_pos hu]
    simp only [Bool.and_eq_true, decide_eq_true_eq] at hu
    omega
  · rw [if_neg hu]
    simp only [Bool.or_eq_true, Bool.and_eq_true, decide_eq_true_eq] at h hu
    omega

lemma lower_id {c : Nat} (h : isUpper c = false) : toAsciiLowercaseChar c = c := by
  unfold toAsciiLowercaseChar
  rw [h]
  rfl

lemma upper_false_of_nonletter {c : Nat} (h : isLetter c = false) : isUpper c = false := by
  unfold isLetter at h
  cases hu : isUpper c
  · rfl
  · rw [hu] at h; simp at h

lemma upper_false_of_lower {c : Nat} (h1 : 97 ≤ c) : isUpper c = false := by
  unfold isUpper
  simp only [Bool.and_eq_true, decide_eq_true_eq, Bool.and_eq_false_iff,
    decide_eq_false_iff_not]
  omega

lemma letter_of_lower {c : Nat} (h1 : 97 ≤ c) (h2 : c ≤ 122) : isLetter c = true := by
  unfold isLetter isLower
  simp only [Bool.or_eq_true, Bool.and_eq_true, decide_eq_true_eq]
  omega

/-- C6: shift bijection: for every lowercase letter `c` and every lowercase key
letter `k`, applying the forward shift of `encdec` and then the backward shift
returns the original letter, and both the intermediate and the final results
are lowercase letters. -/
theorem shift_bijection (c k : Nat)
    (hc1 : 97 ≤ c) (hc2 : c ≤ 122) (hk1 : 97 ≤ k) (hk2 : k ≤ 122) :
    encdec (encdec c k false) k true = c ∧
    isLower (encdec c k false) = true ∧
    isLower (encdec (encdec c k false) k true) = true := by
  have h1 := encdec_enc_bound c (by omega) k (by omega) hc1 hk1
  have h2 := encdec_dec_enc c (by omega) k (by omega) hc1 hk1
  refine ⟨h2, ?_, ?_⟩
  · unfold isLower
    simp only [Bool.and_eq_true, decide_eq_true_eq]
    omega
  · rw [h2]
    unfold isLower
    simp only [Bool.and_eq_true, decide_eq_true_eq]
    omega

/-- Witness for C6 at c = 'h', k = 'r'. -/
theorem shift_bijection_witness :
    encdec (encdec 104 114 false) 114 true = 104 ∧
    isLower (encdec 104 114 false) = true ∧
    isLower (encdec (encdec 104 114 false) 114 true) = true :=
  shift_bijection 104 114 (by decide) (by decide) (by decide) (by decide)

lemma edLoop_nonletter (alpha : Nat → Bool) (hα : AlphaFaithful alpha)
    (key : List Nat) (dec : Bool) :
    ∀ s : List Nat, (∀ c ∈ s, c < 128 ∧ isLetter c = false) → ∀ idx,
      edLoop alpha key dec s idx = some (s, idx) := by
  intro s
  induction s with
  | nil => intro _ idx; rfl
  | cons c rest ih =>
    intro hs idx
    have hc := hs c (by simp)
    have halpha : alpha c = false := by rw [hα c hc.1, hc.2]
    have hascii : isAscii c = true := by
      unfold isAscii; simpa using hc.1
    simp only [edLoop, halpha, hascii, Bool.false_eq_true, if_false, if_true]
    rw [ih (fun x hx => hs x (List.mem_cons_of_mem c hx)) idx]

/-- C3: non-letter invariance: for every key and every text of non-letter ASCII
characters, `encrypt` returns the input unchanged and the key index never
advances (the loop ends with the index it started with, here 0). -/
theorem nonletter_invariance (alpha : Nat → Bool) (hα : AlphaFaithful alpha)
    (key s : List Nat) (hs : ∀ c ∈ s, c < 128 ∧ isLetter c = false) :
    encrypt alpha s key = some s ∧
    edLoop alpha (toAsciiLowercase key) false s 0 = some (s, 0) := by
  have h := edLoop_nonletter alpha hα (toAsciiLowercase key) false s hs 0
  exact ⟨by simp [encrypt, encryptdecrypt, h], h⟩

/-- Witness for C3 on the text " .1" with the empty key. -/
theorem nonletter_invariance_witness :
    encrypt asciiAlpha [32, 46, 49] [] = some [32, 46, 49] ∧
    edLoop asciiAlpha (toAsciiLowercase []) false [32, 46, 49] 0 =
      some ([32, 46, 49], 0) :=
  nonletter_invariance asciiAlpha (fun _ _ => rfl) [] [32, 46, 49] (by decide)

lemma edLoop_filter (alpha : Nat → Bool) (key : List Nat) (dec : Bool) :
    ∀ (s : List Nat) (idx : Nat),
      edLoop alpha key dec s idx =
        edLoop alpha key dec (s.filter (fun c => alpha c || isAscii c)) idx := by
  intro s
  induction s with
  | nil => intro _; rfl
  | cons c rest ih =>
    intro idx
    by_cases hA : alpha c = true
    · rw [List.filter_cons_of_pos (by simp [hA])]
      simp only [edLoop, hA, if_true]
      rw [ih (idx + 1)]
    · have hA' : alpha c = false := by
        cases h : alpha c
        · rfl
        · exact absurd h hA
      by_cases hB : isAscii c = true
      · rw [List.filter_cons_of_pos (by simp [hA', hB])]
        simp only [edLoop, hA', hB, Bool.false_eq_true, if_false, if_true]
        rw [ih idx]
      · have hB' : isAscii c = false := by
          cases h : isAscii c
          · rfl
          · exact absurd h hB
        rw [List.filter_cons_of_neg (by simp [hA', hB'])]
        simp only [edLoop, hA', hB', Bool.false_eq_true, if_false]
        exact ih idx

/-- C10: drop policy: characters that are neither alphabetic nor ASCII are
silently dropped, so the output of encrypt/decrypt equals the transformation of
the input with all such characters removed. -/
theorem drop_policy (alpha : Nat → Bool) (s key : List Nat) (dec : Bool) :
    encryptdecrypt alpha s key dec =
      encryptdecrypt alpha (s.filter (fun c => alpha c || isAscii c)) key dec ∧
    encrypt alpha s key =
      encrypt alpha (s.filter (fun c => alpha c || isAscii c)) key ∧
    decrypt alpha s key =
      decrypt alpha (s.filter (fun c => alpha c || isAscii c)) key := by
  refine ⟨?_, ?_, ?_⟩ <;>
    simp only [encrypt, decrypt, encryptdecrypt, edLoop_filter alpha _ _ s 0]

lemma edLoop_length (alpha : Nat → Bool) (key : List Nat) (dec : Bool) :
    ∀ (s : List Nat) (idx : Nat) (out : List Nat) (fin : Nat),
      (∀ c ∈ s, 32 ≤ c ∧ c ≤ 126) →
      edLoop alpha key dec s idx = some (out, fin) → out.length = s.length := by
  intro s
  induction s with
  | nil =>
    intro idx out fin _ h
    simp only [edLoop, Option.some.injEq, Prod.mk.injEq] at h
    rw [← h.1]
  | cons c rest ih =>
    intro idx out fin hs h
    have hc := hs c (by simp)
    have hascii : isAscii c = true := by
      unfold isAscii
      simp only [decide_eq_true_eq]
      omega
    have hrest : ∀ x ∈ rest, 32 ≤ x ∧ x ≤ 126 :=
      fun x hx => hs x (List.mem_cons_of_mem c hx)
    by_cases hA : alpha c = true
    · simp only [edLoop, hA, if_true] at h
      by_cases hk : idx % 5 < key.length
      · rw [if_pos hk] at h
        cases heq : edLoop alpha key dec rest (idx + 1) with
        | none => rw [heq] at h; cases h
        | some p =>
          rw [heq] at h
          obtain ⟨out', fin'⟩ := p
          simp only [Option.some.injEq, Prod.mk.injEq] at h
          rw [← h.1]
          simp only [List.length_cons]
          rw [ih (idx + 1) out' fin' hrest heq]
      · rw [if_neg hk] at h; cases h
    · have hA' : alpha c = false := by
        cases hh : alpha c
        · rfl
        · exact absurd hh hA
      simp only [edLoop, hA', hascii, Bool.false_eq_true, if_false, if_true] at h
      cases heq : edLoop alpha key dec rest idx with
      | none => rw [heq] at h; cases h
      | some p =>
        rw [heq] at h
        obtain ⟨out', fin'⟩ := p
        simp only [Option.some.injEq, Prod.mk.injEq] at h
        rw [← h.1]
        simp only [List.length_cons]
        rw [ih idx out' fin' hrest heq]

/-- C7: length preservation: when the input is printable ASCII and the
operation succeeds, the output has exactly as many characters as the input. -/
theorem length_preservation (alpha : Nat → Bool) (s key out : List Nat)
    (dec : Bool) (hs : ∀ c ∈ s, 32 ≤ c ∧ c ≤ 126)
    (h : encryptdecrypt alpha s key dec = some out) :
    out.length = s.length := by
  unfold encryptdecrypt at h
  cases heq : edLoop alpha key dec s 0 with
  | none => rw [heq] at h; cases h
  | some p =>
    rw [heq] at h
    obtain ⟨out', fin⟩ := p
    simp only [Option.map_some', Option.some.injEq] at h
    rw [← h]
    exact edLoop_length alpha key dec s 0 out' fin hs heq

/-- Witness for C7: "h!" under the key "keyab". -/
theorem length_preservation_witness : ([114, 33] : List Nat).length = ([104, 33] : List Nat).length :=
  length_preservation asciiAlpha [104, 33] [107, 101, 121, 97, 98] [114, 33]
    false (by decide) (by decide)

/-- C5 as stated fails: `encrypt` validates nothing, so it accepts the key
"0aaaa" (and returns `Ok`), uses key position 0 for the first letter, and the
shift resolved from the key character '0' is -49, outside [0, 25]; the Rust
`%` on a negative dividend then produces the ciphertext [74] ('J'), visibly
outside the lowercase alphabet. -/
theorem shift_range_counterexample :
    encrypt asciiAlpha [97] [48, 97, 97, 97, 97] = some [encdec 97 48 false] ∧
    encdec 97 48 false = 74 ∧ keyShift 48 < 0 := by decide

/-- C5 amended: for keys made of ASCII letters, every key position resolves,
after the `to_ascii_lowercase` normalization applied by encrypt/decrypt, to a
shift in [0, 25]. -/
theorem shift_range (key : List Nat) (hk : ∀ b ∈ key, isLetter b = true) :
    ∀ b ∈ toAsciiLowercase key, 0 ≤ keyShift b ∧ keyShift b ≤ 25 := by
  intro b hb
  rcases List.mem_map.1 hb with ⟨a, ha, rfl⟩
  have h := lower_of_letter (hk a ha)
  unfold keyShift
  omega

/-- Witness for C5 (amended) at the key "Ab", position 0. -/
theorem shift_range_witness :
    0 ≤ keyShift 97 ∧ keyShift 97 ≤ 25 :=
  shift_range [65, 98] (by decide) 97 (by decide)

/-- C2: the code returns no `InvalidKey` error for the empty key: no key
validation exists. With any alphabetic input the empty key hits the
out-of-bounds lookup `keychars[0]` (a panic, the `none` branch here), and with
input containing no alphabetic character the call simply succeeds. -/
theorem empty_key_behavior :
    encrypt asciiAlpha [97] [] = none ∧
    decrypt asciiAlpha [97] [] = none ∧
    encrypt asciiAlpha [33] [] = some [33] ∧
    decrypt asciiAlpha [33] [] = some [33] := by decide

/-- The mod-5 reading of the key cursor stated by C4: the n-th letter (0-based,
counting letters only; in the theorem every input character is a letter, so
letter count and position coincide) is shifted by the key byte at position
n mod 5. -/
def modFiveMap (key : List Nat) (dec : Bool) : Nat → List Nat → List Nat
  | _, [] => []
  | n, c :: rest =>
    encdec (toAsciiLowercaseChar c) (key.getD (n % 5) 0) dec ::
      modFiveMap key dec (n + 1) rest

lemma take5_getD {k₁ k₂ : List Nat} (hk : k₁.take 5 = k₂.take 5) {i : Nat}
    (hi : i < 5) : k₁.getD i 0 = k₂.getD i 0 := by
  have h1 : (k₁.take 5)[i]? = k₁[i]? := List.getElem?_take_of_lt hi
  have h2 : (k₂.take 5)[i]? = k₂[i]? := List.getElem?_take_of_lt hi
  rw [List.getD_eq_getElem?_getD, List.getD_eq_getElem?_getD, ← h1, ← h2, hk]

lemma take5_length_lt {k₁ k₂ : List Nat} (hk : k₁.take 5 = k₂.take 5) {i : Nat}
    (hi : i < 5) (h : i < k₁.length) : i < k₂.length := by
  have := congrArg List.length hk
  simp only [List.length_take] at this
  omega

lemma edLoop_take5 (alpha : Nat → Bool) (dec : Bool) {k₁ k₂ : List Nat}
    (hk : k₁.take 5 = k₂.take 5) :
    ∀ (s : List Nat) (idx : Nat),
      edLoop alpha k₁ dec s idx = edLoop alpha k₂ dec s idx := by
  intro s
  induction s with
  | nil => intro _; rfl
  | cons c rest ih =>
    intro idx
    have h5 : idx % 5 < 5 := Nat.mod_lt idx (by omega)
    simp only [edLoop]
    by_cases hA : alpha c = true
    · simp only [hA, if_true]
      by_cases hl : idx % 5 < k₁.length
      · rw [if_pos hl, if_pos (take5_length_lt hk h5 hl), ih (idx + 1),
          take5_getD hk h5]
      · have hl2 : ¬ idx % 5 < k₂.length := fun h =>
          hl (take5_length_lt hk.symm h5 h)
        rw [if_neg hl, if_neg hl2]
    · have hA' : alpha c = false := by
        cases h : alpha c
        · rfl
        · exact absurd h hA
      simp only [hA', Bool.false_eq_true, if_false]
      by_cases hB : isAscii c = true
      · rw [if_pos hB, if_pos hB, ih idx]
      · rw [if_neg hB, if_neg hB]
        exact ih idx

lemma edLoop_allAlpha (alpha : Nat → Bool) (key : List Nat) (dec : Bool)
    (hlen : 5 ≤ key.length) :
    ∀ (s : List Nat) (idx : Nat), (∀ c ∈ s, alpha c = true) →
      edLoop alpha key dec s idx =
        some (modFiveMap key dec idx s, idx + s.length) := by
  intro s
  induction s with
  | nil => intro _ _; rfl
  | cons c rest ih =>
    intro idx hs
    have hA : alpha c = true := hs c (by simp)
    have h5 : idx % 5 < key.length :=
      lt_of_lt_of_le (Nat.mod_lt idx (by omega)) hlen
    simp only [edLoop, hA, if_true]
    rw [if_pos h5, ih (idx + 1) (fun x hx => hs x (List.mem_cons_of_mem c hx))]
    simp only [modFiveMap, List.length_cons]
    have : idx + 1 + rest.length = idx + (rest.length + 1) := by omega
    rw [this]

/-- C4: the visible cipher wraps its key cursor modulo the hardcoded constant
5, not the key length: the output of encrypt/decrypt depends only on the first
five characters of the key, and on an all-letter input the n-th letter is
shifted by the key byte at position n mod 5. -/
theorem fixed_five_cycle :
    (∀ (alpha : Nat → Bool) (s k₁ k₂ : List Nat), k₁.take 5 = k₂.take 5 →
        encrypt alpha s k₁ = encrypt alpha s k₂ ∧
        decrypt alpha s k₁ = decrypt alpha s k₂) ∧
    (∀ (alpha : Nat → Bool) (s key : List Nat) (dec : Bool),
        5 ≤ key.length → (∀ c ∈ s, alpha c = true) →
        encryptdecrypt alpha s key dec = some (modFiveMap key dec 0 s)) := by
  constructor
  · intro alpha s k₁ k₂ hk
    have hlow : (toAsciiLowercase k₁).take 5 = (toAsciiLowercase k₂).take 5 := by
      unfold toAsciiLowercase
      rw [← List.map_take, ← List.map_take, hk]
    constructor
    · unfold encrypt encryptdecrypt
      rw [edLoop_take5 alpha false hlow s 0]
    · unfold decrypt encryptdecrypt
      rw [edLoop_take5 alpha true hlow s 0]
  · intro alpha s key dec hlen hs
    unfold encryptdecrypt
    rw [edLoop_allAlpha alpha key dec hlen s 0 hs]
    rfl

/-- Witness for C4: the keys "rusty" and "rustyx" share their first five bytes,
and on the all-letter input "ab" the mod-5 map describes the output. -/
theorem fixed_five_cycle_witness :
    (encrypt asciiAlpha [97, 98] [114, 117, 115, 116, 121] =
      encrypt asciiAlpha [97, 98] [114, 117, 115, 116, 121, 120]) ∧
    (encryptdecrypt asciiAlpha [97, 98] [114, 117, 115, 116, 121] false =
      some (modFiveMap [114, 117, 115, 116, 121] false 0 [97, 98])) :=
  ⟨(fixed_five_cycle.1 asciiAlpha [97, 98] [114, 117, 115, 116, 121]
      [114, 117, 115, 116, 121, 120] (by decide)).1,
   fixed_five_cycle.2 asciiAlpha [97, 98] [114, 117, 115, 116, 121] false
      (by decide) (by decide)⟩

lemma edLoop_short_key (alpha : Nat → Bool) (key : List Nat) (dec : Bool)
    (hshort : key.length < 5) :
    ∀ (s : List Nat) (idx : Nat), idx ≤ key.length →
      key.length + 1 ≤ idx + s.countP alpha →
      edLoop alpha key dec s idx = none := by
  intro s
  induction s with
  | nil =>
    intro idx h1 h2
    exfalso
    simp only [List.countP_nil] at h2
    omega
  | cons c rest ih =>
    intro idx h1 h2
    by_cases hA : alpha c = true
    · have hcount : (c :: rest).countP alpha = rest.countP alpha + 1 := by
        simp [List.countP_cons, hA]
      simp only [edLoop, hA, if_true]
      by_cases hidx : idx < key.length
      · rw [if_pos (by rw [Nat.mod_eq_of_lt (by omega)]; exact hidx),
          ih (idx + 1) (by omega) (by rw [hcount] at h2; omega)]
      · rw [if_neg (by rw [Nat.mod_eq_of_lt (by omega)]; omega)]
    · have hA' : alpha c = false := by
        cases h : alpha c
        · rfl
        · exact absurd h hA
      have hcount : (c :: rest).countP alpha = rest.countP alpha := by
        simp [List.countP_cons, hA']
      simp only [edLoop, hA', Bool.false_eq_true, if_false]
      by_cases hB : isAscii c = true
      · rw [if_pos hB, ih idx h1 (by rw [hcount] at h2; omega)]
      · rw [if_neg hB]
        exact ih idx h1 (by rw [hcount] at h2; omega)

lemma edLoop_total (alpha : Nat → Bool) (key : List Nat) (dec : Bool)
    (hlen : 5 ≤ key.length) :
    ∀ (s : List Nat) (idx : Nat), (edLoop alpha key dec s idx).isSome = true := by
  intro s
  induction s with
  | nil => intro _; rfl
  | cons c rest ih =>
    intro idx
    by_cases hA : alpha c = true
    · simp only [edLoop, hA, if_true]
      rw [if_pos (lt_of_lt_of_le (Nat.mod_lt idx (by omega)) hlen)]
      cases heq : edLoop alpha key dec rest (idx + 1) with
      | none =>
        exfalso
        have h := ih (idx + 1)
        rw [heq] at h
        simp at h
      | some p =>
        obtain ⟨o, f⟩ := p
        rfl
    · have hA' : alpha c = false := by
        cases h : alpha c
        · rfl
        · exact absurd h hA
      simp only [edLoop, hA', Bool.false_eq_true, if_false]
      by_cases hB : isAscii c = true
      · rw [if_pos hB]
        cases heq : edLoop alpha key dec rest idx with
        | none =>
          exfalso
          have h := ih idx
          rw [heq] at h
          simp at h
        | some p =>
          obtain ⟨o, f⟩ := p
          rfl
      · rw [if_neg hB]
        exact ih idx

/-- C9: with a key of fewer than 5 bytes and an input containing at least
key-length + 1 alphabetic characters, both operations reach the out-of-bounds
key lookup (the Rust panic, `none`); with a key of at least 5 bytes and
printable ASCII input no out-of-bounds access occurs and the call returns Ok. -/
theorem short_key_panics :
    (∀ (alpha : Nat → Bool) (key s : List Nat) (dec : Bool),
        key.length < 5 → key.length + 1 ≤ s.countP alpha →
        encryptdecrypt alpha s key dec = none) ∧
    (∀ (alpha : Nat → Bool) (key s : List Nat) (dec : Bool),
        5 ≤ key.length → (∀ c ∈ s, 32 ≤ c ∧ c ≤ 126) →
        (encryptdecrypt alpha s key dec).isSome = true) := by
  constructor
  · intro alpha key s dec h1 h2
    unfold encryptdecrypt
    rw [edLoop_short_key alpha key dec h1 s 0 (by omega) (by omega)]
    rfl
  · intro alpha key s dec h1 _
    unfold encryptdecrypt
    have h := edLoop_total alpha key dec h1 s 0
    cases heq : edLoop alpha key dec s 0 with
    | none =>
      rw [heq] at h
      simp at h
    | some p => rfl

/-- Witness for C9: key "k" (1 byte) with input "ab" panics; key "keyab" with
input "a!" succeeds. -/
theorem short_key_panics_witness :
    encryptdecrypt asciiAlpha [97, 98] [107] false = none ∧
    (encryptdecrypt asciiAlpha [97, 33] [107, 101, 121, 97, 98] true).isSome = true :=
  ⟨short_key_panics.1 asciiAlpha [107] [97, 98] false (by decide) (by decide),
   short_key_panics.2 asciiAlpha [107, 101, 121, 97, 98] [97, 33] true
     (by decide) (by decide)⟩

lemma edLoop_roundtrip (alpha : Nat → Bool) (hα : AlphaFaithful alpha)
    (key : List Nat) (hk : ∀ b ∈ key, 97 ≤ b ∧ b ≤ 122) (hlen : 5 ≤ key.length) :
    ∀ (s : List Nat) (idx : Nat), (∀ c ∈ s, c < 128) →
      ∃ ct fin, edLoop alpha key false s idx = some (ct, fin) ∧
        edLoop alpha key true ct idx = some (s.map toAsciiLowercaseChar, fin) := by
  intro s
  induction s with
  | nil => intro idx _; exact ⟨[], idx, rfl, rfl⟩
  | cons c rest ih =>
    intro idx hs
    have hc : c < 128 := hs c (by simp)
    obtain ⟨ct', fin, h1, h2⟩ :=
      ih (idx + 1) (fun x hx => hs x (List.mem_cons_of_mem c hx))
    obtain ⟨ct'', fin', h1', h2'⟩ :=
      ih idx (fun x hx => hs x (List.mem_cons_of_mem c hx))
    have h5 : idx % 5 < key.length :=
      lt_of_lt_of_le (Nat.mod_lt idx (by omega)) hlen
    have hkb : 97 ≤ key.getD (idx % 5) 0 ∧ key.getD (idx % 5) 0 ≤ 122 := by
      have hmem : key.getD (idx % 5) 0 ∈ key := by
        rw [List.getD_eq_getElem?_getD, List.getElem?_eq_getElem h5,
          Option.getD_some]
        exact List.getElem_mem h5
      exact hk _ hmem
    by_cases hA : alpha c = true
    · have hlet : isLetter c = true := by rw [← hα c hc]; exact hA
      have hcl := lower_of_letter hlet
      set cl := toAsciiLowercaseChar c with hcldef
      set kb := key.getD (idx % 5) 0 with hkbdef
      have he := encdec_enc_bound cl (by omega) kb (by omega) hcl.1 hkb.1
      set e := encdec cl kb false with hedef
      have heA : alpha e = true := by
        rw [hα e (by omega)]
        exact letter_of_lower he.1 he.2
      refine ⟨e :: ct', fin, ?_, ?_⟩
      · simp only [edLoop, hA, if_true]
        rw [if_pos h5, h1]
      · simp only [edLoop, heA, if_true, List.map_cons]
        rw [if_pos h5]
        have hle : toAsciiLowercaseChar e = e := lower_id (upper_false_of_lower he.1)
        rw [hle, h2]
        have hrt : encdec e kb true = cl :=
          encdec_dec_enc cl (by omega) kb (by omega) hcl.1 hkb.1
        rw [hrt]
    · have hA' : alpha c = false := by
        cases h : alpha c
        · rfl
        · exact absurd h hA
      have hlet' : isLetter c = false := by rw [← hα c hc]; exact hA'
      have hascii : isAscii c = true := by
        unfold isAscii
        simp only [decide_eq_true_eq]
        omega
      have hlc : toAsciiLowercaseChar c = c := lower_id (upper_false_of_nonletter hlet')
      refine ⟨c :: ct'', fin', ?_, ?_⟩
      · simp only [edLoop, hA', hascii, Bool.false_eq_true, if_false, if_true]
        rw [h1']
      · simp only [edLoop, hA', hascii, Bool.false_eq_true, if_false, if_true,
          List.map_cons]
        rw [h2', hlc]

/-- C1 as stated fails: with the one-letter key "b" (a valid textual key under
the claim, L = 1) and the plaintext "ab", encryption reaches the out-of-bounds
key lookup at the second letter (a panic, `none`), so the round trip cannot
produce fold_case of the plaintext. -/
theorem round_trip_counterexample :
    (encrypt asciiAlpha [97, 98] [98]).bind (fun ct => decrypt asciiAlpha ct [98]) ≠
      some (foldCase [97, 98]) := by decide

/-- C1 amended: for every ASCII plaintext and every textual key of letters of
length at least 5, decrypt after encrypt returns fold_case of the plaintext. -/
theorem round_trip (alpha : Nat → Bool) (hα : AlphaFaithful alpha)
    (p key : List Nat) (hp : ∀ c ∈ p, c < 128)
    (hk : ∀ b ∈ key, isLetter b = true) (hlen : 5 ≤ key.length) :
    (encrypt alpha p key).bind (fun ct => decrypt alpha ct key) =
      some (foldCase p) := by
  have hk' : ∀ b ∈ toAsciiLowercase key, 97 ≤ b ∧ b ≤ 122 := by
    intro b hb
    rcases List.mem_map.1 hb with ⟨a, ha, rfl⟩
    exact lower_of_letter (hk a ha)
  have hlen' : 5 ≤ (toAsciiLowercase key).length := by
    unfold toAsciiLowercase
    rw [List.length_map]
    exact hlen
  obtain ⟨ct, fin, h1, h2⟩ :=
    edLoop_roundtrip alpha hα (toAsciiLowercase key) hk' hlen' p 0 hp
  simp only [encrypt, decrypt, encryptdecrypt, foldCase, h1, h2,
    Option.map_some', Option.some_bind]

/-- Witness for C1 (amended): plaintext "Ab!" under the key "cdefg". -/
theorem round_trip_witness :
    (encrypt asciiAlpha [65, 98, 33] [99, 100, 101, 102, 103]).bind
        (fun ct => decrypt asciiAlpha ct [99, 100, 101, 102, 103]) =
      some (foldCase [65, 98, 33]) :=
  round_trip asciiAlpha (fun _ _ => rfl) [65, 98, 33] [99, 100, 101, 102, 103]
    (by decide) (by decide) (by decide)

/-- Modelled from the spec: the Cipher Engine transform of section 4.2 in the
encrypt direction, with the section 9 default rule "repeat length == key
length". The cryptanalysis side of the repository (the `mod tinker` file with
the crack function) is not under src/, so the scenario ciphertext and the
cracking pipeline below are modelled from the spec's words. -/
def specEncLoop (key : List Nat) : List Nat → Nat → List Nat
  | [], _ => []
  | c :: rest, idx =>
    if isLetter c then
      ((toAsciiLowercaseChar c - 97 + (key.getD (idx % key.length) 0 - 97)) % 26 + 97)
        :: specEncLoop key rest (idx + 1)
    else
      c :: specEncLoop key rest idx

/-- Modelled from the spec: the section 4.2 transform, encrypt direction, run
from key index 0. -/
def specEncrypt (p key : List Nat) : List Nat := specEncLoop key p 0

/-- The code points of "the quick brown fox jumps over the lazy dog". -/
def pangram : List Nat :=
  [116, 104, 101, 32, 113, 117, 105, 99, 107, 32, 98, 114, 111, 119, 110, 32,
   102, 111, 120, 32, 106, 117, 109, 112, 115, 32, 111, 118, 101, 114, 32,
   116, 104, 101, 32, 108, 97, 122, 121, 32, 100, 111, 103]

/-- The scenario plaintext: the pangram repeated 20 times. -/
def plainScenario : List Nat := (List.replicate 20 pangram).flatten

/-- The code points of the scenario key "rust". -/
def keyRust : List Nat := [114, 117, 115, 116]

/-- The scenario ciphertext: the plaintext encrypted under "rust" with the
spec-modelled engine. -/
def cipherScenario : List Nat := specEncrypt plainScenario keyRust

/-- Modelled from the spec: section 4.3 step 1, strip non-letters from the
ciphertext producing a pure letter stream, as alphabet indices 0..25. -/
def letterStream (ct : List Nat) : List Nat :=
  (ct.filter isLetter).map (fun c => toAsciiLowercaseChar c - 97)

/-- Exact nonnegative fractions as numerator-denominator pairs (denominators
always positive here); addition without normalization. -/
def fadd (a b : Nat × Nat) : Nat × Nat := (a.1 * b.2 + b.1 * a.2, a.2 * b.2)

/-- Strict comparison a > b of nonnegative fractions by cross-multiplication. -/
def fgt (a b : Nat × Nat) : Bool := b.1 * a.2 < a.1 * b.2

/-- Modelled from the spec: residue class i of the letter stream for an
assumed key length L (section 4.3 step 2). -/
def residueClass (xs : List Nat) (L i : Nat) : List Nat :=
  (xs.enum.filter (fun p => p.1 % L == i)).map Prod.snd

/-- Modelled from the spec: the Frequency Profile of section 3, the observed
count of each of the 26 letters in one residue class. -/
def classCounts (cls : List Nat) : List Nat :=
  (List.range 26).map (fun j => cls.count j)

/-- Modelled from the spec: the index of coincidence of one residue class
(section 4.3 step 3), sum of count*(count-1) over n*(n-1); classes of fewer
than two letters contribute 0. -/
def classIoc (cls : List Nat) : Nat × Nat :=
  if cls.length < 2 then (0, 1)
  else (((classCounts cls).map (fun c => c * (c - 1))).sum,
    cls.length * (cls.length - 1))

/-- Modelled from the spec: the average index of coincidence over the L
residue classes (section 4.3 step 4). -/
def iocAvg (xs : List Nat) (L : Nat) : Nat × Nat :=
  let s := ((List.range L).map
    (fun i => classIoc (residueClass xs L i))).foldl fadd (0, 1)
  (s.1, s.2 * L)

/-- Modelled from the spec: section 4.3 step 5 with the documented design
choices: candidate lengths 1..=20, select the smallest L whose average index
of coincidence exceeds the threshold midway between the random value (~0.038)
and the English monographic value (~0.065), i.e. 0.0515 = 103/2000; when no
candidate exceeds the threshold the estimate defaults to 1 (the section 8
degenerate-input answer). -/
def estimateKeyLength (xs : List Nat) : Nat :=
  (((List.range 20).map (fun i => i + 1)).find?
    (fun L => fgt (iocAvg xs L) (103, 2000))).getD 1

/-- Modelled from the spec: the Alphabet Model's canonical English
letter-frequency table (Lewand), in units of 10^-5. -/
def canonicalFrequency : List Nat :=
  [8167, 1492, 2782, 4253, 12702, 2228, 2015, 6094, 6966, 153, 772, 4025,
   2406, 6749, 7507, 1929, 95, 5987, 6327, 9056, 2758, 978, 2360, 150, 1974, 74]

/-- Squared difference of two naturals. -/
def sqDiff (a b : Nat) : Nat :=
  (if b ≤ a then a - b else b - a) * (if b ≤ a then a - b else b - a)

/-- Modelled from the spec: chi-squared distance (section 4.4 step 2) of a
residue class, given its frequency profile `cnt` and size n, decrypted with
shift s, against the canonical distribution: the observed count of plaintext
letter j is the class count of cipher letter (j + s) % 26; the expected count
is frequency times n. Each term is (obs*10^5 - freq*n)^2 / (freq*n*10^5),
summed in exact fraction arithmetic. -/
def chiSqC (cnt : List Nat) (n s : Nat) : Nat × Nat :=
  ((List.range 26).map (fun j =>
      (sqDiff (cnt.getD ((j + s) % 26) 0 * 100000)
         (canonicalFrequency.getD j 0 * n),
       canonicalFrequency.getD j 0 * n * 100000))).foldl fadd (0, 1)

/-- Modelled from the spec: section 4.4 step 3, the shift minimizing the
chi-squared distance for one class profile (smallest shift on ties); an empty
class defaults to shift 0 (the section 4.4 failure mode). -/
def bestShiftC (cnt : List Nat) (n : Nat) : Nat :=
  if n = 0 then 0
  else (((List.range 26).map (fun s => (s, chiSqC cnt n s))).foldl
    (fun best p => if fgt best.2 p.2 then p else best) (0, chiSqC cnt n 0)).1

/-- Modelled from the spec: the best shift of one residue class, through its
frequency profile. -/
def bestShift (cls : List Nat) : Nat := bestShiftC (classCounts cls) cls.length

/-- Modelled from the spec: section 4.4 step 4, the recovered key for assumed
length L, one best shift per residue class, encoded back to letters. -/
def recoverKey (xs : List Nat) (L : Nat) : List Nat :=
  (List.range L).map (fun i => bestShift (residueClass xs L i) + 97)

/-- Modelled from the spec: the Cryptanalysis Driver (section 4.5): estimate
the key length from the stripped letter stream, then recover the key content
at that length. -/
def crack (ct : List Nat) : Nat × List Nat :=
  (estimateKeyLength (letterStream ct),
   recoverKey (letterStream ct) (estimateKeyLength (letterStream ct)))

/-- The letter stream of the scenario ciphertext, precomputed
(`letterStream_eval` proves it equal to the derived stream). -/
def ctLetters : List Nat :=
  [10, 1, 22, 9, 11, 2, 20, 3, 18, 11, 6, 15, 4, 25, 6, 16, 0, 14, 4, 8, 9, 8, 13, 23, 8, 13,
   25, 23, 2, 20, 17, 17, 20, 8, 24, 12, 24, 24, 8, 13, 25, 22, 2, 20, 8, 8, 14, 6, 22, 8, 15,
   2, 11, 6, 7, 11, 5, 15, 22, 10, 10, 1, 22, 4, 17, 19, 16, 22, 5, 0, 11, 0, 21, 10, 12, 1,
   19, 4, 19, 10, 5, 16, 5, 24, 5, 17, 1, 13, 3, 9, 10, 7, 12, 24, 9, 12, 24, 24, 3, 19, 16,
   18, 21, 7, 23, 13, 25, 23, 7, 14, 0, 21, 1, 21, 9, 7, 13, 7, 23, 7, 14, 3, 12, 5, 6, 12, 6,
   14, 21, 11, 11, 0, 21, 5, 18, 18, 15, 23, 6, 25, 10, 1, 22, 9, 11, 2, 20, 3, 18, 11, 6, 15,
   4, 25, 6, 16, 0, 14, 4, 8, 9, 8, 13, 23, 8, 13, 25, 23, 2, 20, 17, 17, 20, 8, 24, 12, 24,
   24, 8, 13, 25, 22, 2, 20, 8, 8, 14, 6, 22, 8, 15, 2, 11, 6, 7, 11, 5, 15, 22, 10, 10, 1,
   22, 4, 17, 19, 16, 22, 5, 0, 11, 0, 21, 10, 12, 1, 19, 4, 19, 10, 5, 16, 5, 24, 5, 17, 1,
   13, 3, 9, 10, 7, 12, 24, 9, 12, 24, 24, 3, 19, 16, 18, 21, 7, 23, 13, 25, 23, 7, 14, 0, 21,
   1, 21, 9, 7, 13, 7, 23, 7, 14, 3, 12, 5, 6, 12, 6, 14, 21, 11, 11, 0, 21, 5, 18, 18, 15,
   23, 6, 25, 10, 1, 22, 9, 11, 2, 20, 3, 18, 11, 6, 15, 4, 25, 6, 16, 0, 14, 4, 8, 9, 8, 13,
   23, 8, 13, 25, 23, 2, 20, 17, 17, 20, 8, 24, 12, 24, 24, 8, 13, 25, 22, 2, 20, 8, 8, 14, 6,
   22, 8, 15, 2, 11, 6, 7, 11, 5, 15, 22, 10, 10, 1, 22, 4, 17, 19, 16, 22, 5, 0, 11, 0, 21,
   10, 12, 1, 19, 4, 19, 10, 5, 16, 5, 24, 5, 17, 1, 13, 3, 9, 10, 7, 12, 24, 9, 12, 24, 24,
   3, 19, 16, 18, 21, 7, 23, 13, 25, 23, 7, 14, 0, 21, 1, 21, 9, 7, 13, 7, 23, 7, 14, 3, 12,
   5, 6, 12, 6, 14, 21, 11, 11, 0, 21, 5, 18, 18, 15, 23, 6, 25, 10, 1, 22, 9, 11, 2, 20, 3,
   18, 11, 6, 15, 4, 25, 6, 16, 0, 14, 4, 8, 9, 8, 13, 23, 8, 13, 25, 23, 2, 20, 17, 17, 20,
   8, 24, 12, 24, 24, 8, 13, 25, 22, 2, 20, 8, 8, 14, 6, 22, 8, 15, 2, 11, 6, 7, 11, 5, 15,
   22, 10, 10, 1, 22, 4, 17, 19, 16, 22, 5, 0, 11, 0, 21, 10, 12, 1, 19, 4, 19, 10, 5, 16, 5,
   24, 5, 17, 1, 13, 3, 9, 10, 7, 12, 24, 9, 12, 24, 24, 3, 19, 16, 18, 21, 7, 23, 13, 25, 23,
   7, 14, 0, 21, 1, 21, 9, 7, 13, 7, 23, 7, 14, 3, 12, 5, 6, 12, 6, 14, 21, 11, 11, 0, 21, 5,
   18, 18, 15, 23, 6, 25, 10, 1, 22, 9, 11, 2, 20, 3, 18, 11, 6, 15, 4, 25, 6, 16, 0, 14, 4,
   8, 9, 8, 13, 23, 8, 13, 25, 23, 2, 20, 17, 17, 20, 8, 24, 12, 24, 24, 8, 13, 25, 22, 2, 20,
   8, 8, 14, 6, 22, 8, 15, 2, 11, 6, 7, 11, 5, 15, 22, 10, 10, 1, 22, 4, 17, 19, 16, 22, 5, 0,
   11, 0, 21, 10, 12, 1, 19, 4, 19, 10, 5, 16, 5, 24, 5, 17, 1, 13, 3, 9, 10, 7, 12, 24, 9,
   12, 24, 24, 3, 19, 16, 18, 21, 7, 23, 13, 25, 23, 7, 14, 0, 21, 1, 21, 9, 7, 13, 7, 23, 7,
   14, 3, 12, 5, 6, 12, 6, 14, 21, 11, 11, 0, 21, 5, 18, 18, 15, 23, 6, 25]

lemma letterStream_eval : letterStream cipherScenario = ctLetters := by decide

lemma estimate_eval : estimateKeyLength ctLetters = 5 := by decide

/-- Residue class 0 of the scenario stream at assumed length 4, precomputed. -/
def cls4x0 : List Nat :=
  [10, 11, 18, 4, 0, 9, 8, 2, 20, 24, 25, 8, 22, 11, 5, 10, 17, 5, 21, 19, 5, 5, 3, 12, 24,
   16, 23, 7, 1, 13, 14, 6, 21, 21, 15, 10, 11, 18, 4, 0, 9, 8, 2, 20, 24, 25, 8, 22, 11, 5,
   10, 17, 5, 21, 19, 5, 5, 3, 12, 24, 16, 23, 7, 1, 13, 14, 6, 21, 21, 15, 10, 11, 18, 4, 0,
   9, 8, 2, 20, 24, 25, 8, 22, 11, 5, 10, 17, 5, 21, 19, 5, 5, 3, 12, 24, 16, 23, 7, 1, 13,
   14, 6, 21, 21, 15, 10, 11, 18, 4, 0, 9, 8, 2, 20, 24, 25, 8, 22, 11, 5, 10, 17, 5, 21, 19,
   5, 5, 3, 12, 24, 16, 23, 7, 1, 13, 14, 6, 21, 21, 15, 10, 11, 18, 4, 0, 9, 8, 2, 20, 24,
   25, 8, 22, 11, 5, 10, 17, 5, 21, 19, 5, 5, 3, 12, 24, 16, 23, 7, 1, 13, 14, 6, 21, 21, 15]

lemma residue_4_0 : residueClass ctLetters 4 0 = cls4x0 := by decide

lemma best_4_0 : bestShift cls4x0 = 17 := by
  unfold bestShift
  have h1 : classCounts cls4x0 = [5, 5, 5, 5, 5, 20, 5, 5, 10, 5, 10, 10, 5, 5, 5, 5, 5, 5, 5, 5, 5, 15, 5, 5, 10, 5] := by decide
  have h2 : (cls4x0).length = 175 := by decide
  rw [h1, h2]
  decide

/-- Residue class 1 of the scenario stream at assumed length 4, precomputed. -/
def cls4x1 : List Nat :=
  [1, 2, 11, 25, 14, 8, 13, 20, 8, 24, 22, 8, 8, 6, 15, 1, 19, 0, 10, 4, 16, 17, 9, 24, 24,
   18, 13, 14, 21, 7, 3, 12, 11, 5, 23, 1, 2, 11, 25, 14, 8, 13, 20, 8, 24, 22, 8, 8, 6, 15,
   1, 19, 0, 10, 4, 16, 17, 9, 24, 24, 18, 13, 14, 21, 7, 3, 12, 11, 5, 23, 1, 2, 11, 25, 14,
   8, 13, 20, 8, 24, 22, 8, 8, 6, 15, 1, 19, 0, 10, 4, 16, 17, 9, 24, 24, 18, 13, 14, 21, 7,
   3, 12, 11, 5, 23, 1, 2, 11, 25, 14, 8, 13, 20, 8, 24, 22, 8, 8, 6, 15, 1, 19, 0, 10, 4, 16,
   17, 9, 24, 24, 18, 13, 14, 21, 7, 3, 12, 11, 5, 23, 1, 2, 11, 25, 14, 8, 13, 20, 8, 24, 22,
   8, 8, 6, 15, 1, 19, 0, 10, 4, 16, 17, 9, 24, 24, 18, 13, 14, 21, 7, 3, 12, 11, 5, 23]

lemma residue_4_1 : residueClass ctLetters 4 1 = cls4x1 := by decide

lemma best_4_1 : bestShift cls4x1 = 20 := by
  unfold bestShift
  have h1 : classCounts cls4x1 = [5, 10, 5, 5, 5, 5, 5, 5, 20, 5, 5, 10, 5, 10, 10, 5, 5, 5, 5, 5, 5, 5, 5, 5, 15, 5] := by decide
  have h2 : (cls4x1).length = 175 := by decide
  rw [h1, h2]
  decide

/-- Residue class 2 of the scenario stream at assumed length 4, precomputed. -/
def cls4x2 : List Nat :=
  [22, 20, 6, 6, 4, 13, 25, 17, 24, 8, 2, 14, 15, 7, 22, 22, 16, 11, 12, 19, 5, 1, 10, 9, 3,
   21, 25, 0, 9, 23, 12, 6, 11, 18, 6, 22, 20, 6, 6, 4, 13, 25, 17, 24, 8, 2, 14, 15, 7, 22,
   22, 16, 11, 12, 19, 5, 1, 10, 9, 3, 21, 25, 0, 9, 23, 12, 6, 11, 18, 6, 22, 20, 6, 6, 4,
   13, 25, 17, 24, 8, 2, 14, 15, 7, 22, 22, 16, 11, 12, 19, 5, 1, 10, 9, 3, 21, 25, 0, 9, 23,
   12, 6, 11, 18, 6, 22, 20, 6, 6, 4, 13, 25, 17, 24, 8, 2, 14, 15, 7, 22, 22, 16, 11, 12, 19,
   5, 1, 10, 9, 3, 21, 25, 0, 9, 23, 12, 6, 11, 18, 6, 22, 20, 6, 6, 4, 13, 25, 17, 24, 8, 2,
   14, 15, 7, 22, 22, 16, 11, 12, 19, 5, 1, 10, 9, 3, 21, 25, 0, 9, 23, 12, 6, 11, 18, 6]

lemma residue_4_2 : residueClass ctLetters 4 2 = cls4x2 := by decide

lemma best_4_2 : bestShift cls4x2 = 18 := by
  unfold bestShift
  have h1 : classCounts cls4x2 = [5, 5, 5, 5, 5, 5, 20, 5, 5, 10, 5, 10, 10, 5, 5, 5, 5, 5, 5, 5, 5, 5, 15, 5, 5, 10] := by decide
  have h2 : (cls4x2).length = 175 := by decide
  rw [h1, h2]
  decide

/-- Residue class 3 of the scenario stream at assumed length 4, precomputed. -/
def cls4x3 : List Nat :=
  [9, 3, 15, 16, 8, 23, 23, 17, 12, 13, 20, 6, 2, 11, 10, 4, 22, 0, 1, 10, 24, 13, 7, 12, 19,
   7, 23, 21, 7, 7, 5, 14, 0, 18, 25, 9, 3, 15, 16, 8, 23, 23, 17, 12, 13, 20, 6, 2, 11, 10,
   4, 22, 0, 1, 10, 24, 13, 7, 12, 19, 7, 23, 21, 7, 7, 5, 14, 0, 18, 25, 9, 3, 15, 16, 8, 23,
   23, 17, 12, 13, 20, 6, 2, 11, 10, 4, 22, 0, 1, 10, 24, 13, 7, 12, 19, 7, 23, 21, 7, 7, 5,
   14, 0, 18, 25, 9, 3, 15, 16, 8, 23, 23, 17, 12, 13, 20, 6, 2, 11, 10, 4, 22, 0, 1, 10, 24,
   13, 7, 12, 19, 7, 23, 21, 7, 7, 5, 14, 0, 18, 25, 9, 3, 15, 16, 8, 23, 23, 17, 12, 13, 20,
   6, 2, 11, 10, 4, 22, 0, 1, 10, 24, 13, 7, 12, 19, 7, 23, 21, 7, 7, 5, 14, 0, 18, 25]

lemma residue_4_3 : residueClass ctLetters 4 3 = cls4x3 := by decide

lemma best_4_3 : bestShift cls4x3 = 19 := by
  unfold bestShift
  have h1 : classCounts cls4x3 = [10, 5, 5, 5, 5, 5, 5, 20, 5, 5, 10, 5, 10, 10, 5, 5, 5, 5, 5, 5, 5, 5, 5, 15, 5, 5] := by decide
  have h2 : (cls4x3).length = 175 := by decide
  rw [h1, h2]
  decide

/-- Residue class 0 of the scenario stream at assumed length 5, precomputed. -/
def cls5x0 : List Nat :=
  [10, 2, 6, 16, 9, 13, 17, 12, 25, 8, 15, 11, 10, 19, 11, 1, 5, 17, 10, 12, 16, 13, 0, 7, 14,
   12, 11, 18, 10, 2, 6, 16, 9, 13, 17, 12, 25, 8, 15, 11, 10, 19, 11, 1, 5, 17, 10, 12, 16,
   13, 0, 7, 14, 12, 11, 18, 10, 2, 6, 16, 9, 13, 17, 12, 25, 8, 15, 11, 10, 19, 11, 1, 5, 17,
   10, 12, 16, 13, 0, 7, 14, 12, 11, 18, 10, 2, 6, 16, 9, 13, 17, 12, 25, 8, 15, 11, 10, 19,
   11, 1, 5, 17, 10, 12, 16, 13, 0, 7, 14, 12, 11, 18, 10, 2, 6, 16, 9, 13, 17, 12, 25, 8, 15,
   11, 10, 19, 11, 1, 5, 17, 10, 12, 16, 13, 0, 7, 14, 12, 11, 18]

lemma residue_5_0 : residueClass ctLetters 5 0 = cls5x0 := by decide

lemma best_5_0 : bestShift cls5x0 = 25 := by
  unfold bestShift
  have h1 : classCounts cls5x0 = [5, 5, 5, 0, 0, 5, 5, 5, 5, 5, 15, 15, 15, 10, 5, 5, 10, 10, 5, 5, 0, 0, 0, 0, 0, 5] := by decide
  have h2 : (cls5x0).length = 140 := by decide
  rw [h1, h2]
  decide

/-- Residue class 1 of the scenario stream at assumed length 5, precomputed. -/
def cls5x1 : List Nat :=
  [1, 20, 15, 0, 8, 25, 17, 24, 22, 14, 2, 5, 1, 16, 0, 19, 16, 1, 7, 24, 18, 25, 21, 13, 3,
   6, 0, 15, 1, 20, 15, 0, 8, 25, 17, 24, 22, 14, 2, 5, 1, 16, 0, 19, 16, 1, 7, 24, 18, 25,
   21, 13, 3, 6, 0, 15, 1, 20, 15, 0, 8, 25, 17, 24, 22, 14, 2, 5, 1, 16, 0, 19, 16, 1, 7, 24,
   18, 25, 21, 13, 3, 6, 0, 15, 1, 20, 15, 0, 8, 25, 17, 24, 22, 14, 2, 5, 1, 16, 0, 19, 16,
   1, 7, 24, 18, 25, 21, 13, 3, 6, 0, 15, 1, 20, 15, 0, 8, 25, 17, 24, 22, 14, 2, 5, 1, 16, 0,
   19, 16, 1, 7, 24, 18, 25, 21, 13, 3, 6, 0, 15]

lemma residue_5_1 : residueClass ctLetters 5 1 = cls5x1 := by decide

lemma best_5_1 : bestShift cls5x1 = 13 := by
  unfold bestShift
  have h1 : classCounts cls5x1 = [15, 15, 5, 5, 0, 5, 5, 5, 5, 0, 0, 0, 0, 5, 5, 10, 10, 5, 5, 5, 5, 5, 5, 0, 10, 10] := by decide
  have h2 : (cls5x1).length = 140 := by decide
  rw [h1, h2]
  decide

/-- Residue class 2 of the scenario stream at assumed length 5, precomputed. -/
def cls5x2 : List Nat :=
  [22, 3, 4, 14, 13, 23, 20, 24, 2, 6, 11, 15, 22, 22, 21, 4, 5, 13, 12, 24, 21, 23, 1, 7, 12,
   14, 21, 23, 22, 3, 4, 14, 13, 23, 20, 24, 2, 6, 11, 15, 22, 22, 21, 4, 5, 13, 12, 24, 21,
   23, 1, 7, 12, 14, 21, 23, 22, 3, 4, 14, 13, 23, 20, 24, 2, 6, 11, 15, 22, 22, 21, 4, 5, 13,
   12, 24, 21, 23, 1, 7, 12, 14, 21, 23, 22, 3, 4, 14, 13, 23, 20, 24, 2, 6, 11, 15, 22, 22,
   21, 4, 5, 13, 12, 24, 21, 23, 1, 7, 12, 14, 21, 23, 22, 3, 4, 14, 13, 23, 20, 24, 2, 6, 11,
   15, 22, 22, 21, 4, 5, 13, 12, 24, 21, 23, 1, 7, 12, 14, 21, 23]

lemma residue_5_2 : residueClass ctLetters 5 2 = cls5x2 := by decide

lemma best_5_2 : bestShift cls5x2 = 10 := by
  unfold bestShift
  have h1 : classCounts cls5x2 = [0, 5, 5, 5, 10, 5, 5, 5, 0, 0, 0, 5, 10, 10, 10, 5, 0, 0, 0, 0, 5, 15, 15, 15, 10, 0] := by decide
  have h2 : (cls5x2).length = 140 := by decide
  rw [h1, h2]
  decide

/-- Residue class 3 of the scenario stream at assumed length 5, precomputed. -/
def cls5x3 : List Nat :=
  [9, 18, 25, 4, 23, 2, 8, 8, 20, 22, 6, 22, 4, 5, 10, 19, 24, 3, 24, 3, 7, 7, 21, 23, 5, 21,
   5, 6, 9, 18, 25, 4, 23, 2, 8, 8, 20, 22, 6, 22, 4, 5, 10, 19, 24, 3, 24, 3, 7, 7, 21, 23,
   5, 21, 5, 6, 9, 18, 25, 4, 23, 2, 8, 8, 20, 22, 6, 22, 4, 5, 10, 19, 24, 3, 24, 3, 7, 7,
   21, 23, 5, 21, 5, 6, 9, 18, 25, 4, 23, 2, 8, 8, 20, 22, 6, 22, 4, 5, 10, 19, 24, 3, 24, 3,
   7, 7, 21, 23, 5, 21, 5, 6, 9, 18, 25, 4, 23, 2, 8, 8, 20, 22, 6, 22, 4, 5, 10, 19, 24, 3,
   24, 3, 7, 7, 21, 23, 5, 21, 5, 6]

lemma residue_5_3 : residueClass ctLetters 5 3 = cls5x3 := by decide

lemma best_5_3 : bestShift cls5x3 = 2 := by
  unfold bestShift
  have h1 : classCounts cls5x3 = [0, 0, 5, 10, 10, 15, 10, 10, 10, 5, 5, 0, 0, 0, 0, 0, 0, 0, 5, 5, 5, 10, 10, 10, 10, 5] := by decide
  have h2 : (cls5x3).length = 140 := by decide
  rw [h1, h2]
  decide

/-- Residue class 4 of the scenario stream at assumed length 5, precomputed. -/
def cls5x4 : List Nat :=
  [11, 11, 6, 8, 8, 20, 24, 13, 8, 8, 7, 10, 17, 0, 12, 10, 5, 9, 9, 19, 23, 14, 9, 7, 6, 11,
   18, 25, 11, 11, 6, 8, 8, 20, 24, 13, 8, 8, 7, 10, 17, 0, 12, 10, 5, 9, 9, 19, 23, 14, 9, 7,
   6, 11, 18, 25, 11, 11, 6, 8, 8, 20, 24, 13, 8, 8, 7, 10, 17, 0, 12, 10, 5, 9, 9, 19, 23,
   14, 9, 7, 6, 11, 18, 25, 11, 11, 6, 8, 8, 20, 24, 13, 8, 8, 7, 10, 17, 0, 12, 10, 5, 9, 9,
   19, 23, 14, 9, 7, 6, 11, 18, 25, 11, 11, 6, 8, 8, 20, 24, 13, 8, 8, 7, 10, 17, 0, 12, 10,
   5, 9, 9, 19, 23, 14, 9, 7, 6, 11, 18, 25]

lemma residue_5_4 : residueClass ctLetters 5 4 = cls5x4 := by decide

lemma best_5_4 : bestShift cls5x4 = 5 := by
  unfold bestShift
  have h1 : classCounts cls5x4 = [5, 0, 0, 0, 0, 5, 10, 10, 20, 15, 10, 15, 5, 5, 5, 0, 0, 5, 5, 5, 5, 0, 0, 5, 5, 5] := by decide
  have h2 : (cls5x4).length = 140 := by decide
  rw [h1, h2]
  decide

lemma recover_four : recoverKey ctLetters 4 = keyRust := by
  unfold recoverKey
  have hr : List.range 4 = [0, 1, 2, 3] := by decide
  rw [hr]
  simp only [List.map_cons, List.map_nil]
  rw [residue_4_0, residue_4_1, residue_4_2, residue_4_3,
    best_4_0, best_4_1, best_4_2, best_4_3]
  decide

lemma recover_five : recoverKey ctLetters 5 = [122, 110, 107, 99, 102] := by
  unfold recoverKey
  have hr : List.range 5 = [0, 1, 2, 3, 4] := by decide
  rw [hr]
  simp only [List.map_cons, List.map_nil]
  rw [residue_5_0, residue_5_1, residue_5_2, residue_5_3, residue_5_4,
    best_5_0, best_5_1, best_5_2, best_5_3, best_5_4]

lemma crack_eval : crack cipherScenario = (5, [122, 110, 107, 99, 102]) := by
  unfold crack
  rw [letterStream_eval, estimate_eval, recover_five]

/-- C8 as stated fails on the spec-modelled cryptanalysis: the Cryptanalysis
Driver does not yield estimated key length 4 for the scenario ciphertext. The
repeated 35-letter pangram makes the ciphertext letter stream periodic with
period lcm(35, 4) = 140, so the candidate lengths 5, 7, 10, 14 and 20 (values
whose residue classes contain few distinct stream positions) all score an
average index of coincidence above the midway threshold, while the true key
length 4 scores only 9/203 (about 0.044, below the threshold: each of its
classes carries the full, nearly flat pangram distribution). The smallest
candidate above the threshold is 5, so the driver returns key length 5 (and
the garbled key "znkcf"). -/
theorem crack_scenario_counterexample : crack cipherScenario ≠ (4, keyRust) := by
  rw [crack_eval]
  decide

/-- C8 amended: for the scenario ciphertext the Cryptanalysis Driver yields
estimated key length 5 and recovered key "znkcf", not 4 and "rust"; the
Key-Content Recoverer run with the true key length 4 does recover exactly
"rust". -/
theorem crack_scenario : crack cipherScenario = (5, [122, 110, 107, 99, 102]) ∧
    recoverKey (letterStream cipherScenario) 4 = keyRust :=
  ⟨crack_eval, by rw [letterStream_eval]; exact recover_four⟩

end Tinker
